import Mathlib

/-!
Shallow embedding of the `othello` package (files `othello/board.py`,
`othello/disk.py`, `othello/_typing.py`).

The Python grid is a list of eight rows indexed as `grid[y][x]`; here the grid
is a total function on coordinate pairs, with `grid (x, y)` standing for the
source expression `self.grid[y][x]`.  Exceptions are modelled with `Except`:
a raised exception becomes `.error e`, a normal return becomes `.ok`.  The
exception classes come from `othello/exceptions.py`, which the package imports;
they are modelled from the spec as three distinct constructors.
-/

namespace Othello

/-- Embedding of `Player` from `_typing.py` (also aliased as `Side`). -/
inductive Player
  | dark
  | light
deriving DecidableEq

/-- Alias `Side = Player` from `_typing.py`. -/
abbrev Side := Player

/-- Embedding of `State` from `_typing.py`. -/
inductive State
  | nonTerminal
  | terminal
deriving DecidableEq

/-- A board coordinate `(x, y)`; the source uses plain integer pairs. -/
abbrev Space := Int × Int

/-- Embedding of `Disk` from `disk.py`: a placed piece carrying its side. -/
structure Disk where
  side : Side
deriving DecidableEq

/-- Embedding of `Disk.flip`: toggles Dark and Light.  The Python method mutates the disk in
place and returns `self`; functionally it is the disk with the toggled side. -/
def Disk.flip (d : Disk) : Disk :=
  match d.side with
  | .dark => ⟨.light⟩
  | .light => ⟨.dark⟩

/-- Embedding of `Direction` from `_typing.py`. -/
inductive Direction
  | north
  | northeast
  | east
  | southeast
  | south
  | southwest
  | west
  | northwest
deriving DecidableEq

/-- The `(dx, dy)` value of each `Direction` member. -/
def Direction.value : Direction → Int × Int
  | .north => (0, -1)
  | .northeast => (1, -1)
  | .east => (1, 0)
  | .southeast => (1, 1)
  | .south => (0, 1)
  | .southwest => (-1, 1)
  | .west => (-1, 0)
  | .northwest => (-1, -1)

/-- Iteration order of `for direction in Direction` (member definition order). -/
def Direction.all : List Direction :=
  [.north, .northeast, .east, .southeast, .south, .southwest, .west, .northwest]

/-- Modelled from the spec: the three exception classes of
`othello/exceptions.py` (only declared there; the file holds no logic),
required to be distinguishable failure kinds. -/
inductive OthelloError
  | gameOverError
  | illegalSpaceError
  | unownedSpaceError
deriving DecidableEq

/-- The Python bounds test `0 <= x < 8 and 0 <= y < 8`. -/
def inRange (p : Space) : Prop :=
  0 ≤ p.1 ∧ p.1 < 8 ∧ 0 ≤ p.2 ∧ p.2 < 8

instance : DecidablePred inRange := fun p =>
  inferInstanceAs (Decidable (0 ≤ p.1 ∧ p.1 < 8 ∧ 0 ≤ p.2 ∧ p.2 < 8))

/-- Embedding of `Board` from `board.py`. -/
structure Board where
  grid : Space → Option Disk
  passes : Nat
  state : State
  to_play : Player

/-- The grid set up by `Board.__init__`: the source writes `grid[3][3] = DARK`,
`grid[3][4] = LIGHT`, `grid[4][3] = LIGHT`, `grid[4][4] = DARK`, which under
the `grid[y][x]` convention are the spaces (3,3), (4,3), (3,4), (4,4). -/
def initialGrid : Space → Option Disk := fun p =>
  if p = (3, 3) then some ⟨.dark⟩
  else if p = (4, 3) then some ⟨.light⟩
  else if p = (3, 4) then some ⟨.light⟩
  else if p = (4, 4) then some ⟨.dark⟩
  else none

/-- Embedding of `Board.__init__`. -/
def Board.init : Board :=
  { grid := initialGrid
    passes := 0
    state := .nonTerminal
    to_play := .dark }

/-- Embedding of `Board.disc_counts`: scans the grid row by row (`y` outer, `x` inner, as
the source iterates `for row in self.grid: for disk in row`). -/
def Board.disc_counts (b : Board) : Nat × Nat :=
  (List.range 8).foldl (fun acc y =>
    (List.range 8).foldl (fun acc' x =>
      match b.grid ((x : Int), (y : Int)) with
      | none => acc'
      | some disk =>
        match disk.side with
        | .dark => (acc'.1 + 1, acc'.2)
        | .light => (acc'.1, acc'.2 + 1)) acc) (0, 0)

/-- Embedding of `Board.winner`. -/
def Board.winner (b : Board) : Option Player :=
  if b.state = .nonTerminal then none
  else
    let dc := b.disc_counts
    if dc.1 > dc.2 then some .dark
    else if dc.1 < dc.2 then some .light
    else none

/-- Embedding of `Board.score`.  Note the source's light-winner branch returns
`(dark_count, 64 - light_count)`, translated verbatim. -/
def Board.score (b : Board) : Option (Int × Int) :=
  let dark_count : Int := b.disc_counts.1
  let light_count : Int := b.disc_counts.2
  match b.winner with
  | some .dark => some (64 - light_count, light_count)
  | some .light => some (dark_count, 64 - light_count)
  | none => none

/-- Embedding of `Board.alternate_players` (functionally: the board with `to_play`
swapped). -/
def Board.alternate_players (b : Board) : Board :=
  match b.to_play with
  | .dark => { b with to_play := .light }
  | .light => { b with to_play := .dark }

/-- The `while` loop of `Board.get_chain`, walking from position `(cx, cy)` in
steps of `(dx, dy)` with the accumulated `chain`.  The loop body only runs at
in-range positions, and a straight line in a non-zero direction meets the 8×8
grid in at most 8 cells, so the loop iterates at most 8 times: fuel 16 is never
exhausted and the `0` case never fires on the arguments `get_chain` passes. -/
def chainLoop (b : Board) (chain : List Space) (cx cy dx dy : Int) :
    Nat → List Space
  | 0 => []
  | n + 1 =>
    if inRange (cx, cy) then
      match b.grid (cx, cy) with
      | none => []
      | some disk =>
        if disk.side = b.to_play then chain
        else chainLoop b (chain ++ [(cx, cy)]) (cx + dx) (cy + dy) dx dy n
    else []

/-- The body of `Board.get_chain` after the anchor-ownership check: the first
stepped-to cell, then the `while` walk. -/
def chainScan (b : Board) (space : Space) (direction : Direction) : List Space :=
  let dx := direction.value.1
  let dy := direction.value.2
  let cx := space.1 + dx
  let cy := space.2 + dy
  if ¬ inRange (cx, cy) then []
  else
    match b.grid (cx, cy) with
    | none => []
    | some disk =>
      if disk.side = b.to_play then []
      else chainLoop b [(cx, cy)] (cx + dx) (cy + dy) dx dy 16

/-- Embedding of `Board.get_chain`: raises `UnownedSpaceError` when the anchor cell is empty
or holds a disk of the other side, otherwise scans for a capture chain. -/
def Board.get_chain (b : Board) (space : Space) (direction : Direction) :
    Except OthelloError (List Space) :=
  match b.grid space with
  | none => .error .unownedSpaceError
  | some disk =>
    if disk.side ≠ b.to_play then .error .unownedSpaceError
    else .ok (chainScan b space direction)

/-- The `for direction in Direction` loop of `Board.is_legal`: returns `true`
at the first direction whose chain is non-empty (Python truthiness), and
propagates an exception raised by `get_chain`. -/
def isLegalLoop (b : Board) (space : Space) :
    List Direction → Except OthelloError Bool
  | [] => .ok false
  | d :: ds =>
    match b.get_chain space d with
    | .error e => .error e
    | .ok chain => if chain.isEmpty then isLegalLoop b space ds else .ok true

/-- Embedding of `Board.is_legal`. -/
def Board.is_legal (b : Board) (space : Space) : Except OthelloError Bool :=
  if b.state = .terminal then .ok false
  else if (b.grid space).isSome then .ok false
  else isLegalLoop b space Direction.all

/-- Iteration order of `Board.legal_spaces`: `x` outer, `y` inner, both
ascending. -/
def allSpaces : List Space :=
  (List.range 8).flatMap fun x => (List.range 8).map fun y => ((x : Int), (y : Int))

/-- The collection loop of `Board.legal_spaces`, propagating an exception
raised by `is_legal` at the first offending space, as the Python loop does. -/
def legalLoop (b : Board) : List Space → Except OthelloError (List Space)
  | [] => .ok []
  | s :: ss =>
    match b.is_legal s with
    | .error e => .error e
    | .ok true =>
      match legalLoop b ss with
      | .error e => .error e
      | .ok rest => .ok (s :: rest)
    | .ok false => legalLoop b ss

/-- Embedding of `Board.legal_spaces`. -/
def Board.legal_spaces (b : Board) : Except OthelloError (List Space) :=
  if b.state = .terminal then .ok []
  else legalLoop b allSpaces

/-- Point update of the grid, modelling `self.grid[y][x] = ...` at space
`p = (x, y)`. -/
def updateGrid (g : Space → Option Disk) (p : Space) (v : Option Disk) :
    Space → Option Disk :=
  fun q => if q = p then v else g q

/-- The flipping loop of `Board.play`: `for i, j in spaces: grid[j][i].flip()`,
applied left to right.  Every space in `spaces` holds a disk (the chains only
list occupied cells), so mapping `flip` over the optional cell is exact. -/
def flipAll (g : Space → Option Disk) (spaces : List Space) :
    Space → Option Disk :=
  spaces.foldl (fun g' p => updateGrid g' p ((g' p).map Disk.flip)) g

/-- The chain-collection loop of `Board.play`: `spaces.extend(...)` over the
eight directions in order, propagating any exception from `get_chain`. -/
def chainsLoop (b : Board) (space : Space) :
    List Direction → Except OthelloError (List Space)
  | [] => .ok []
  | d :: ds =>
    match b.get_chain space d with
    | .error e => .error e
    | .ok c =>
      match chainsLoop b space ds with
      | .error e => .error e
      | .ok rest => .ok (c ++ rest)

/-- Embedding of `Board.play`.  The source mutates `self` step by step and returns `self`;
here each mutation step produces the next board value, and a raised exception
(which in the source aborts before any later mutation) becomes `.error`. -/
def Board.play (b : Board) (space : Space) : Except OthelloError Board :=
  if b.state = .terminal then .error .gameOverError
  else
    match b.legal_spaces with
    | .error e => .error e
    | .ok ls =>
      if ls.isEmpty then
        let b1 := b.alternate_players
        let b2 := { b1 with passes := b1.passes + 1 }
        .ok (if b2.passes = 2 then { b2 with state := .terminal } else b2)
      else
        match b.is_legal space with
        | .error e => .error e
        | .ok legal =>
          if ¬ legal then .error .illegalSpaceError
          else
            let b1 := { b with grid := updateGrid b.grid space (some ⟨b.to_play⟩) }
            match chainsLoop b1 space Direction.all with
            | .error e => .error e
            | .ok spaces =>
              let b2 := { b1 with grid := flipAll b1.grid spaces }
              .ok { b2.alternate_players with passes := 0 }


/-- Position reached after `k` steps from `space` in direction `d`. -/
def stepN (space : Space) (d : Direction) : Nat → Space
  | 0 => space
  | k + 1 => ((stepN space d k).1 + d.value.1, (stepN space d k).2 + d.value.2)

/-- The cell at `q` is on the board and occupied by the opponent of the player
to move. -/
def Board.opponentAt (b : Board) (q : Space) : Prop :=
  inRange q ∧ ∃ dk : Disk, b.grid q = some dk ∧ dk.side ≠ b.to_play

/-- Terminal board used to witness the game-over behaviour of `play`. -/
def terminalBoard : Board :=
  { Board.init with state := .terminal }

/-- Board exhibiting the light-winner branch of `score`: Terminal, one dark
disk at (0,0) and three light disks at (1,0), (2,0), (3,0). -/
def c2Board : Board :=
  { grid := fun p =>
      if p = (0, 0) then some ⟨.dark⟩
      else if p = (1, 0) then some ⟨.light⟩
      else if p = (2, 0) then some ⟨.light⟩
      else if p = (3, 0) then some ⟨.light⟩
      else none
    passes := 2
    state := .terminal
    to_play := .dark }

/-- Non-Terminal board with a single dark disk at (3,3) and Dark to move:
with no light disk anywhere, no direction can yield a capture chain, so the
player to move has no legal space in the rules' sense. -/
def c3Board : Board :=
  { grid := fun p => if p = (3, 3) then some ⟨.dark⟩ else none
    passes := 0
    state := .nonTerminal
    to_play := .dark }

lemma stepN_closed (space : Space) (d : Direction) (k : Nat) :
    stepN space d k =
      (space.1 + (k : Int) * d.value.1, space.2 + (k : Int) * d.value.2) := by
  induction k with
  | zero => simp [stepN]
  | succ n ih =>
    rw [stepN, ih]
    simp only [Prod.mk.injEq]
    constructor <;> (push_cast; ring)

lemma stepN_bound (space : Space) (d : Direction) (k : Nat)
    (h0 : inRange space) (hk : inRange (stepN space d k)) : k < 8 := by
  rw [stepN_closed] at hk
  rcases space with ⟨x, y⟩
  cases d <;> simp [inRange, Direction.value] at h0 hk <;> omega

lemma chainLoop_opponent (b : Board) (dx dy : Int) :
    ∀ (n : Nat) (cx cy : Int) (acc : List Space),
      (∀ q ∈ acc, b.opponentAt q) →
      ∀ q ∈ chainLoop b acc cx cy dx dy n, b.opponentAt q := by
  intro n
  induction n with
  | zero => intro cx cy acc hacc q hq; simp [chainLoop] at hq
  | succ n ih =>
    intro cx cy acc hacc q hq
    rw [chainLoop] at hq
    by_cases hr : inRange (cx, cy)
    · rw [if_pos hr] at hq
      cases hg : b.grid (cx, cy) with
      | none => simp [hg] at hq
      | some disk =>
        simp only [hg] at hq
        by_cases hs : disk.side = b.to_play
        · rw [if_pos hs] at hq; exact hacc q hq
        · rw [if_neg hs] at hq
          refine ih _ _ _ ?_ q hq
          intro q' hq'
          rcases List.mem_append.mp hq' with h | h
          · exact hacc q' h
          · rw [List.mem_singleton] at h
            subst h
            exact ⟨hr, disk, hg, hs⟩
    · rw [if_neg hr] at hq; simp at hq


lemma range_map_head (g : Nat → Space) (t : Nat) :
    (List.range (t + 1)).map g = g 0 :: (List.range t).map (fun i => g (i + 1)) := by
  rw [List.range_succ_eq_map, List.map_cons, List.map_map]
  rfl

lemma chainLoop_closes (b : Board) (space : Space) (d : Direction) (m : Nat)
    (dm : Disk)
    (hopp : ∀ k, 1 ≤ k → k < m → b.opponentAt (stepN space d k))
    (hm : inRange (stepN space d m))
    (hgm : b.grid (stepN space d m) = some dm)
    (hsm : dm.side = b.to_play) :
    ∀ (n : Nat) (j : Nat) (acc : List Space), 1 ≤ j → j ≤ m → m - j < n →
      chainLoop b acc (stepN space d j).1 (stepN space d j).2
          d.value.1 d.value.2 n
        = acc ++ (List.range (m - j)).map (fun i => stepN space d (j + i)) := by
  intro n
  induction n with
  | zero => intro j acc _ _ h; exact absurd h (Nat.not_lt_zero _)
  | succ n ih =>
    intro j acc hj1 hjm hfuel
    rcases eq_or_lt_of_le hjm with rfl | hlt
    · rw [chainLoop,
        if_pos (show inRange ((stepN space d j).1, (stepN space d j).2) from hm)]
      have hgm' : b.grid ((stepN space d j).1, (stepN space d j).2) = some dm := hgm
      simp only [hgm']
      rw [if_pos hsm]
      simp
    · obtain ⟨hr, dk, hgk, hsk⟩ := hopp j hj1 hlt
      rw [chainLoop,
        if_pos (show inRange ((stepN space d j).1, (stepN space d j).2) from hr)]
      have hgk' : b.grid ((stepN space d j).1, (stepN space d j).2) = some dk := hgk
      simp only [hgk']
      rw [if_neg hsk]
      have hpos1 : (stepN space d j).1 + d.value.1 = (stepN space d (j + 1)).1 := rfl
      have hpos2 : (stepN space d j).2 + d.value.2 = (stepN space d (j + 1)).2 := rfl
      rw [hpos1, hpos2,
        ih (j + 1) (acc ++ [((stepN space d j).1, (stepN space d j).2)])
          (by omega) (by omega) (by omega)]
      have heta : ((stepN space d j).1, (stepN space d j).2) = stepN space d j := rfl
      rw [heta, List.append_assoc, List.singleton_append]
      congr 1
      have hsub : m - j = (m - (j + 1)) + 1 := by omega
      rw [hsub, range_map_head]
      have hfun : (fun i => stepN space d (j + 1 + i)) =
          fun i => stepN space d (j + (i + 1)) := by
        funext i
        congr 1
        omega
      rw [hfun]
      rfl

lemma chainLoop_misses (b : Board) (space : Space) (d : Direction) (m : Nat)
    (hopp : ∀ k, 1 ≤ k → k < m → b.opponentAt (stepN space d k))
    (hbad : ¬ inRange (stepN space d m) ∨ b.grid (stepN space d m) = none) :
    ∀ (n : Nat) (j : Nat) (acc : List Space), 1 ≤ j → j ≤ m → m - j < n →
      chainLoop b acc (stepN space d j).1 (stepN space d j).2
          d.value.1 d.value.2 n = [] := by
  intro n
  induction n with
  | zero => intro j acc _ _ h; exact absurd h (Nat.not_lt_zero _)
  | succ n ih =>
    intro j acc hj1 hjm hfuel
    rcases eq_or_lt_of_le hjm with rfl | hlt
    · rw [chainLoop]
      rcases hbad with hnr | hempty
      · rw [if_neg (show ¬ inRange ((stepN space d j).1, (stepN space d j).2) from hnr)]
      · by_cases hr : inRange ((stepN space d j).1, (stepN space d j).2)
        · rw [if_pos hr]
          have hempty' : b.grid ((stepN space d j).1, (stepN space d j).2) = none := hempty
          simp only [hempty']
        · rw [if_neg hr]
    · obtain ⟨hr, dk, hgk, hsk⟩ := hopp j hj1 hlt
      rw [chainLoop,
        if_pos (show inRange ((stepN space d j).1, (stepN space d j).2) from hr)]
      have hgk' : b.grid ((stepN space d j).1, (stepN space d j).2) = some dk := hgk
      simp only [hgk']
      rw [if_neg hsk]
      have hpos1 : (stepN space d j).1 + d.value.1 = (stepN space d (j + 1)).1 := rfl
      have hpos2 : (stepN space d j).2 + d.value.2 = (stepN space d (j + 1)).2 := rfl
      rw [hpos1, hpos2]
      exact ih (j + 1) _ (by omega) (by omega) (by omega)

lemma get_chain_owned (b : Board) (space : Space) (d : Direction) (disk : Disk)
    (hocc : b.grid space = some disk) (hside : disk.side = b.to_play) :
    b.get_chain space d = .ok (chainScan b space d) := by
  rw [Board.get_chain]
  simp only [hocc]
  rw [if_neg (not_not_intro hside)]

lemma chainScan_first_bad (b : Board) (space : Space) (d : Direction)
    (h : ¬ inRange (stepN space d 1) ∨ b.grid (stepN space d 1) = none ∨
      ∃ d1 : Disk, b.grid (stepN space d 1) = some d1 ∧ d1.side = b.to_play) :
    chainScan b space d = [] := by
  simp only [chainScan]
  rcases h with hnr | hempty | ⟨d1, hg1, hs1⟩
  · rw [if_pos (show ¬ inRange (space.1 + d.value.1, space.2 + d.value.2) from hnr)]
  · by_cases hr : inRange (space.1 + d.value.1, space.2 + d.value.2)
    · rw [if_neg (not_not_intro hr)]
      have h' : b.grid (space.1 + d.value.1, space.2 + d.value.2) = none := hempty
      simp only [h']
    · rw [if_pos hr]
  · by_cases hr : inRange (space.1 + d.value.1, space.2 + d.value.2)
    · rw [if_neg (not_not_intro hr)]
      have h' : b.grid (space.1 + d.value.1, space.2 + d.value.2) = some d1 := hg1
      simp only [h']
      rw [if_pos hs1]
    · rw [if_pos hr]

lemma chainScan_closes (b : Board) (space : Space) (d : Direction) (m : Nat)
    (hin : inRange space) (hm2 : 2 ≤ m)
    (hopp : ∀ k, 1 ≤ k → k < m → b.opponentAt (stepN space d k))
    (dm : Disk) (hmr : inRange (stepN space d m))
    (hgm : b.grid (stepN space d m) = some dm) (hsm : dm.side = b.to_play) :
    chainScan b space d =
      (List.range (m - 1)).map (fun i => stepN space d (1 + i)) := by
  obtain ⟨hr1, d1, hg1, hs1⟩ := hopp 1 le_rfl (by omega)
  simp only [chainScan]
  rw [if_neg (not_not_intro
    (show inRange (space.1 + d.value.1, space.2 + d.value.2) from hr1))]
  have hg1' : b.grid (space.1 + d.value.1, space.2 + d.value.2) = some d1 := hg1
  simp only [hg1']
  rw [if_neg hs1]
  have hfuel : m - 2 < 16 := by
    rcases Nat.lt_or_ge m 3 with h3 | h3
    · omega
    · have hrm : inRange (stepN space d (m - 1)) :=
        (hopp (m - 1) (by omega) (by omega)).1
      have := stepN_bound space d (m - 1) hin hrm
      omega
  have hloop : chainLoop b [(space.1 + d.value.1, space.2 + d.value.2)]
      (space.1 + d.value.1 + d.value.1) (space.2 + d.value.2 + d.value.2)
      d.value.1 d.value.2 16
      = [stepN space d 1] ++ (List.range (m - 2)).map (fun i => stepN space d (2 + i)) :=
    chainLoop_closes b space d m dm hopp hmr hgm hsm 16 2 [stepN space d 1]
      (by omega) (by omega) hfuel
  rw [hloop, List.singleton_append]
  have hsub : m - 1 = (m - 2) + 1 := by omega
  rw [hsub, range_map_head]
  have hfun : (fun i => stepN space d (2 + i)) =
      fun i => stepN space d (1 + (i + 1)) := by
    funext i
    congr 1
    omega
  rw [hfun]

lemma chainScan_misses (b : Board) (space : Space) (d : Direction) (m : Nat)
    (hin : inRange space) (hm2 : 2 ≤ m)
    (hopp : ∀ k, 1 ≤ k → k < m → b.opponentAt (stepN space d k))
    (hbad : ¬ inRange (stepN space d m) ∨ b.grid (stepN space d m) = none) :
    chainScan b space d = [] := by
  obtain ⟨hr1, d1, hg1, hs1⟩ := hopp 1 le_rfl (by omega)
  simp only [chainScan]
  rw [if_neg (not_not_intro
    (show inRange (space.1 + d.value.1, space.2 + d.value.2) from hr1))]
  have hg1' : b.grid (space.1 + d.value.1, space.2 + d.value.2) = some d1 := hg1
  simp only [hg1']
  rw [if_neg hs1]
  have hfuel : m - 2 < 16 := by
    rcases Nat.lt_or_ge m 3 with h3 | h3
    · omega
    · have hrm : inRange (stepN space d (m - 1)) :=
        (hopp (m - 1) (by omega) (by omega)).1
      have := stepN_bound space d (m - 1) hin hrm
      omega
  exact chainLoop_misses b space d m hopp hbad 16 2
    [(space.1 + d.value.1, space.2 + d.value.2)] (by omega) (by omega) hfuel

lemma chainScan_opponent (b : Board) (space : Space) (d : Direction) :
    ∀ q ∈ chainScan b space d, b.opponentAt q := by
  intro q hq
  simp only [chainScan] at hq
  by_cases hr : inRange (space.1 + d.value.1, space.2 + d.value.2)
  · rw [if_neg (not_not_intro hr)] at hq
    cases hg : b.grid (space.1 + d.value.1, space.2 + d.value.2) with
    | none => simp [hg] at hq
    | some disk =>
      simp only [hg] at hq
      by_cases hs : disk.side = b.to_play
      · rw [if_pos hs] at hq
        simp at hq
      · rw [if_neg hs] at hq
        refine chainLoop_opponent b d.value.1 d.value.2 16 _ _ _ ?_ q hq
        intro q' hq'
        rw [List.mem_singleton] at hq'
        subst hq'
        exact ⟨hr, disk, hg, hs⟩
  · rw [if_pos hr] at hq
    simp at hq

/-- C5: for every board, every in-range anchor space occupied by the current
player and every direction, `get_chain` (1) returns `[]` when the first
stepped-to cell is off-board, empty, or the current player's; (2) returns
exactly the opposing spaces strictly between the anchor and a closing
current-player disk when every intermediate cell holds an opponent disk;
(3) returns `[]` when the walk runs off the board or meets an empty cell
after opponent disks; and (4) every space of a returned chain is on the board
and holds an opponent disk (never past the edge, never empty). -/
theorem get_chain_correct (b : Board) (space : Space) (d : Direction)
    (disk : Disk) (hin : inRange space) (hocc : b.grid space = some disk)
    (hside : disk.side = b.to_play) :
    ((¬ inRange (stepN space d 1) ∨ b.grid (stepN space d 1) = none ∨
        (∃ d1 : Disk, b.grid (stepN space d 1) = some d1 ∧ d1.side = b.to_play)) →
      b.get_chain space d = .ok [])
  ∧ (∀ m : Nat, 2 ≤ m →
      (∀ k, 1 ≤ k → k < m → b.opponentAt (stepN space d k)) →
      ∀ dm : Disk, inRange (stepN space d m) →
        b.grid (stepN space d m) = some dm → dm.side = b.to_play →
        b.get_chain space d =
          .ok ((List.range (m - 1)).map (fun i => stepN space d (1 + i))))
  ∧ (∀ m : Nat, 2 ≤ m →
      (∀ k, 1 ≤ k → k < m → b.opponentAt (stepN space d k)) →
      (¬ inRange (stepN space d m) ∨ b.grid (stepN space d m) = none) →
      b.get_chain space d = .ok [])
  ∧ (∀ l, b.get_chain space d = .ok l → ∀ q ∈ l, b.opponentAt q) := by
  have howned := get_chain_owned b space d disk hocc hside
  refine ⟨?_, ?_, ?_, ?_⟩
  · intro h
    rw [howned, chainScan_first_bad b space d h]
  · intro m hm2 hopp dm hmr hgm hsm
    rw [howned, chainScan_closes b space d m hin hm2 hopp dm hmr hgm hsm]
  · intro m hm2 hopp hbad
    rw [howned, chainScan_misses b space d m hin hm2 hopp hbad]
  · intro l hl q hq
    rw [howned] at hl
    have : chainScan b space d = l := Except.ok.inj hl
    rw [← this] at hq
    exact chainScan_opponent b space d q hq

/-- Witness for `get_chain_correct`: on the initial board the anchor (3,3) is
Dark's, and towards the west the first stepped-to cell (2,3) is empty, so the
chain is empty. -/
theorem get_chain_correct_witness :
    Board.init.get_chain (3, 3) Direction.west = .ok [] :=
  (get_chain_correct Board.init (3, 3) Direction.west ⟨.dark⟩ (by decide)
    rfl rfl).1 (Or.inr (Or.inl rfl))

/-- C8: for every board, in-range space and direction, `get_chain` returns
`.error UnownedSpaceError` exactly when the anchor is not occupied by a disk
of the current player's side, and on a current-player anchor it returns a list
normally (the error is a distinct outcome from the `[]` no-chain result). -/
theorem get_chain_unowned_iff (b : Board) (space : Space) (d : Direction)
    (_hin : inRange space) :
    (b.get_chain space d = .error .unownedSpaceError ↔
      ¬ ∃ disk : Disk, b.grid space = some disk ∧ disk.side = b.to_play)
  ∧ ((∃ disk : Disk, b.grid space = some disk ∧ disk.side = b.to_play) →
      ∃ l, b.get_chain space d = .ok l) := by
  cases hg : b.grid space with
  | none =>
    have herr : b.get_chain space d = .error .unownedSpaceError := by
      rw [Board.get_chain]
      simp only [hg]
    refine ⟨⟨fun _ => ?_, fun _ => herr⟩, fun h => ?_⟩
    · rintro ⟨disk, hd, -⟩
      exact Option.noConfusion hd
    · obtain ⟨disk, hd, -⟩ := h
      exact Option.noConfusion hd
  | some disk =>
    by_cases hs : disk.side = b.to_play
    · have howned := get_chain_owned b space d disk hg hs
      refine ⟨⟨fun h => absurd (howned ▸ h) (by simp), fun h => ?_⟩,
        fun _ => ⟨chainScan b space d, howned⟩⟩
      exact absurd ⟨disk, rfl, hs⟩ h
    · have herr : b.get_chain space d = .error .unownedSpaceError := by
        rw [Board.get_chain]
        simp only [hg]
        rw [if_pos hs]
      refine ⟨⟨fun _ => ?_, fun _ => herr⟩, fun h => ?_⟩
      · rintro ⟨disk2, hd2, hs2⟩
        cases Option.some.inj hd2
        exact hs hs2
      · obtain ⟨disk2, hd2, hs2⟩ := h
        cases Option.some.inj hd2
        exact absurd hs2 hs

/-- Witness for `get_chain_unowned_iff`: on the initial board (0,0) is empty,
so `get_chain` from that anchor raises `UnownedSpaceError`. -/
theorem get_chain_unowned_iff_witness :
    Board.init.get_chain (0, 0) Direction.north = .error .unownedSpaceError :=
  (get_chain_unowned_iff Board.init (0, 0) Direction.north (by decide)).1.mpr
    (by
      rintro ⟨disk, hd, -⟩
      exact Option.noConfusion hd)

/-- C7: on a Terminal board `play` raises `GameOverError` for every space
argument; the check is the first statement of `play`, before any mutation, so
no board attribute is touched and Terminal is absorbing. -/
theorem play_terminal (b : Board) (space : Space) (h : b.state = .terminal) :
    b.play space = .error .gameOverError := by
  rw [Board.play, if_pos h]

/-- Witness for `play_terminal` at a concrete Terminal board. -/
theorem play_terminal_witness :
    terminalBoard.play (0, 0) = .error .gameOverError :=
  play_terminal terminalBoard (0, 0) rfl

/-- C9: the freshly constructed board has exactly the four centre spaces
occupied — Dark at (3,3) and (4,4), Light at (3,4) and (4,3) — with Dark to
move, Non-Terminal state, zero passes, and disc counts (2,2). -/
theorem init_board_correct :
    (allSpaces.filter fun p => (Board.init.grid p).isSome)
        = [(3, 3), (3, 4), (4, 3), (4, 4)]
  ∧ Board.init.grid (3, 3) = some ⟨.dark⟩
  ∧ Board.init.grid (4, 4) = some ⟨.dark⟩
  ∧ Board.init.grid (3, 4) = some ⟨.light⟩
  ∧ Board.init.grid (4, 3) = some ⟨.light⟩
  ∧ Board.init.to_play = .dark
  ∧ Board.init.state = .nonTerminal
  ∧ Board.init.passes = 0
  ∧ Board.init.disc_counts = (2, 2) :=
  ⟨rfl, rfl, rfl, rfl, rfl, rfl, rfl, rfl, rfl⟩

/-- C10: `flip` toggles Dark to Light and Light to Dark, always changes the
side, and is an involution.  (The Python method mutates the single disk
instance in place and returns it; functionally that is the toggled disk.) -/
theorem disk_flip_correct :
    Disk.flip ⟨.dark⟩ = ⟨.light⟩
  ∧ Disk.flip ⟨.light⟩ = ⟨.dark⟩
  ∧ (∀ d : Disk, d.flip.side ≠ d.side)
  ∧ (∀ d : Disk, d.flip.flip = d) := by
  refine ⟨rfl, rfl, fun d => ?_, fun d => ?_⟩
  · cases d with
    | mk s => cases s <;> simp [Disk.flip]
  · cases d with
    | mk s => cases s <;> rfl

/-- C1 (failing run): on the initial board the space (2,4) is empty (it is
even a legal move for Dark, capturing (3,4) eastwards), yet `is_legal`
propagates `UnownedSpaceError`: it calls `get_chain` with the empty candidate
space as anchor, and `get_chain` rejects anchors not owned by the player. -/
theorem is_legal_raises_on_empty :
    Board.init.grid (2, 4) = none
  ∧ Board.init.is_legal (2, 4) = .error .unownedSpaceError :=
  ⟨rfl, rfl⟩

/-- C2 (failing run): a Terminal board with disc counts (1, 3) has Light as
winner; the source computes Light's score as `64 - light_count = 61` instead
of the specified `64 - dark_count = 63` (the loser's own count, 1, is
reported correctly). -/
theorem score_light_winner_bug :
    c2Board.disc_counts = (1, 3)
  ∧ c2Board.winner = some .light
  ∧ c2Board.score = some (1, 61) :=
  ⟨rfl, rfl, rfl⟩

/-- C3 (failing run): on `c3Board` (one dark disk, no light disks, Dark to
move) no legal space exists, so `play` should pass; instead evaluating
`legal_spaces` calls `is_legal` on the empty space (0,0), which propagates
`UnownedSpaceError` from `get_chain`. -/
theorem play_pass_bug :
    c3Board.state = .nonTerminal
  ∧ c3Board.play (0, 0) = .error .unownedSpaceError :=
  ⟨rfl, rfl⟩

/-- C4 (failing run): on the initial board (2,4) is a legal Dark move — (3,4)
holds Light and (4,4) holds Dark — yet `play` propagates `UnownedSpaceError`
raised while `legal_spaces` probes the empty space (0,0), and never reaches
the move logic. -/
theorem play_move_bug :
    Board.init.grid (2, 4) = none
  ∧ Board.init.grid (3, 4) = some ⟨.light⟩
  ∧ Board.init.grid (4, 4) = some ⟨.dark⟩
  ∧ Board.init.play (2, 4) = .error .unownedSpaceError :=
  ⟨rfl, rfl, rfl, rfl⟩

/-- C6 (failing run): on the initial board legal moves exist for Dark and
(0,0) yields no capture chain, so `play (0,0)` should raise
`IllegalSpaceError`; instead it propagates `UnownedSpaceError` from the
`legal_spaces` computation. -/
theorem play_illegal_bug :
    Board.init.play (0, 0) = .error .unownedSpaceError := rfl

end Othello
